import Mathlib

/-!
Verification development for the K-Factor analytics engine (src/app.py).

The source is a pandas/sklearn analytics script.  We embed its core
computations shallowly:

* raw CSV rows become `RawEvent` values (cohort date as a natural number,
  segment enum, rational user count and gross revenue);
* float arithmetic is idealised as exact rational arithmetic, except where
  the IEEE special values matter: pandas division by zero silently yields
  an infinity or NaN, and pivot cells for absent groups are NaN.  These
  are modelled by the extended value type `EVal` with IEEE-style
  addition, multiplication and division;
* the pandas pivot table of line 48, the per-row k_factor of line 50, the
  overall totals of lines 59-62 and the derived metrics of lines 77 and
  112-122 are embedded as functions of the raw event list;
* the lag construction and `dropna` trimming of lines 322-326, the two
  `LinearRegression` fits of lines 331 and 335 (modelled by the ordinary
  least squares normal equations; an empty sample gives the sklearn
  zero-sample error, embedded as `Except.error`), the projection of
  lines 369-371, and the anomaly statistics of lines 385-400 are embedded
  below, each next to a comment naming its source lines.
-/

namespace KFA

/-- Traffic segment of a raw event: the `ms` column of the CSV. -/
inductive Segment
  | ORGANIC
  | UA
deriving DecidableEq, Repr

/-- One raw data row: cohort date (as a day number), segment, user count and
gross revenue.  User counts and revenue are idealised as rationals. -/
structure RawEvent where
  cohort : ℕ
  ms : Segment
  user_cnt : ℚ
  gross : ℚ
deriving DecidableEq, Repr

/-- Extended value: a finite rational, an IEEE infinity, or NaN.  This models
the values a pandas float64 cell can take in this program: group sums are
finite, absent pivot cells are NaN, and division by zero produces an infinity
or NaN. -/
inductive EVal
  | num (q : ℚ)
  | pinf
  | ninf
  | nan
deriving DecidableEq, Repr

namespace EVal

/-- IEEE-style addition on extended values: NaN absorbs, opposite infinities
give NaN, an infinity absorbs finite values. -/
def eadd : EVal → EVal → EVal
  | nan, _ => nan
  | _, nan => nan
  | pinf, ninf => nan
  | ninf, pinf => nan
  | pinf, _ => pinf
  | _, pinf => pinf
  | ninf, _ => ninf
  | _, ninf => ninf
  | num a, num b => num (a + b)

/-- IEEE-style multiplication on extended values. -/
def emul : EVal → EVal → EVal
  | nan, _ => nan
  | _, nan => nan
  | num a, num b => num (a * b)
  | pinf, pinf => pinf
  | pinf, ninf => ninf
  | ninf, pinf => ninf
  | ninf, ninf => pinf
  | pinf, num b => if 0 < b then pinf else if b < 0 then ninf else nan
  | num a, pinf => if 0 < a then pinf else if a < 0 then ninf else nan
  | ninf, num b => if 0 < b then ninf else if b < 0 then pinf else nan
  | num a, ninf => if 0 < a then ninf else if a < 0 then pinf else nan

/-- IEEE-style division on extended values.  A nonzero finite value divided by
zero gives a signed infinity; zero divided by zero gives NaN.  This is what
numpy/pandas float division does (the zero here is the positive zero; the
program never produces a negative zero denominator). -/
def ediv : EVal → EVal → EVal
  | nan, _ => nan
  | _, nan => nan
  | pinf, pinf => nan
  | pinf, ninf => nan
  | ninf, pinf => nan
  | ninf, ninf => nan
  | pinf, num b => if b < 0 then ninf else pinf
  | ninf, num b => if b < 0 then pinf else ninf
  | num _, pinf => num 0
  | num _, ninf => num 0
  | num a, num b =>
    if b = 0 then (if 0 < a then pinf else if a < 0 then ninf else nan)
    else num (a / b)

end EVal

/-- Sum of a list of extended values. -/
def esum (xs : List EVal) : EVal := xs.foldr EVal.eadd (EVal.num 0)

/-- Drop the NaN entries of a list of extended values.  This models the
default `skipna=True` behaviour of the pandas `sum`, `mean` and `std`
reductions: NaN cells are skipped, but infinities are not. -/
def dropNan (xs : List EVal) : List EVal :=
  xs.filter (fun v => decide (v ≠ EVal.nan))

/-- Pandas `Series.sum()`: sum with NaN entries skipped. -/
def esumCol (xs : List EVal) : EVal := esum (dropNan xs)

/-- Pandas `Series.mean()`: NaN entries are skipped; the mean of an empty
series is NaN. -/
def emean (xs : List EVal) : EVal :=
  let ys := dropNan xs
  if ys.length = 0 then EVal.nan else EVal.ediv (esum ys) (EVal.num ys.length)

/-! ## Pivot aggregation (src/app.py lines 48-50) -/

/-- The raw events contributing to one pivot cell: those with the given
cohort date and segment. -/
def matchCell (events : List RawEvent) (d : ℕ) (s : Segment) : List RawEvent :=
  events.filter (fun e => decide (e.cohort = d) && decide (e.ms = s))

/-- One cell of `pivot_table(index=cohort, columns=ms, aggfunc=sum)`
(line 48): the sum of the field `f` over the matching events, and NaN when
the (date, segment) group is empty — `pivot_table` has no `fill_value`, so
absent groups become missing values, not zeros. -/
def cellSum (events : List RawEvent) (d : ℕ) (s : Segment) (f : RawEvent → ℚ) : EVal :=
  let g := matchCell events d s
  if g.length = 0 then EVal.nan else EVal.num ((g.map f).sum)

/-- The distinct cohort dates of the data, in order of first occurrence. -/
def pivotDates (events : List RawEvent) : List ℕ :=
  (events.map (·.cohort)).dedup

/-- One row of the pivot table of line 48, after the renaming of line 49. -/
structure PivotRow where
  cohort : ℕ
  gross_ORGANIC : EVal
  gross_UA : EVal
  users_ORGANIC : EVal
  users_UA : EVal
deriving DecidableEq, Repr

/-- The pivot row for one cohort date. -/
def pivotRow (events : List RawEvent) (d : ℕ) : PivotRow :=
  { cohort := d
    gross_ORGANIC := cellSum events d Segment.ORGANIC (·.gross)
    gross_UA := cellSum events d Segment.UA (·.gross)
    users_ORGANIC := cellSum events d Segment.ORGANIC (·.user_cnt)
    users_UA := cellSum events d Segment.UA (·.user_cnt) }

/-- The full pivot table, one row per distinct cohort date. -/
def pivotRows (events : List RawEvent) : List PivotRow :=
  (pivotDates events).map (pivotRow events)

/-- The per-row k_factor column of line 50:
`pivot[users_ORGANIC] / pivot[users_UA]`, elementwise float division. -/
def rowK (r : PivotRow) : EVal := EVal.ediv r.users_ORGANIC r.users_UA

/-! ## Overall totals and derived metrics (lines 59-62, 77, 112-122) -/

/-- Line 59: `total_ua = pivot[users_UA].sum()` (NaN cells skipped). -/
def total_ua (events : List RawEvent) : EVal :=
  esumCol ((pivotRows events).map (·.users_UA))

/-- Line 60: `total_organic = pivot[users_ORGANIC].sum()`. -/
def total_organic (events : List RawEvent) : EVal :=
  esumCol ((pivotRows events).map (·.users_ORGANIC))

/-- Line 61: `total_gross_ua = pivot[gross_UA].sum()`. -/
def total_gross_ua (events : List RawEvent) : EVal :=
  esumCol ((pivotRows events).map (·.gross_UA))

/-- Line 62: `total_gross_organic = pivot[gross_ORGANIC].sum()`. -/
def total_gross_organic (events : List RawEvent) : EVal :=
  esumCol ((pivotRows events).map (·.gross_ORGANIC))

/-- Line 77: `k_factor = total_organic / total_ua`. -/
def k_factor (events : List RawEvent) : EVal :=
  EVal.ediv (total_organic events) (total_ua events)

/-- Line 112: `arpu_ua = total_gross_ua / total_ua`. -/
def arpu_ua (events : List RawEvent) : EVal :=
  EVal.ediv (total_gross_ua events) (total_ua events)

/-- Line 113: `arpu_organic = total_gross_organic / total_organic`. -/
def arpu_organic (events : List RawEvent) : EVal :=
  EVal.ediv (total_gross_organic events) (total_organic events)

/-- Line 116: `organic_from_ua = total_ua * k_factor`. -/
def organic_from_ua (events : List RawEvent) : EVal :=
  EVal.emul (total_ua events) (k_factor events)

/-- Line 119: `gross_from_organic_via_ua = organic_from_ua * arpu_organic`. -/
def gross_from_organic_via_ua (events : List RawEvent) : EVal :=
  EVal.emul (organic_from_ua events) (arpu_organic events)

/-- Line 122: `k_factor_money = gross_from_organic_via_ua / total_gross_ua`. -/
def k_factor_money (events : List RawEvent) : EVal :=
  EVal.ediv (gross_from_organic_via_ua events) (total_gross_ua events)

/-- The event-level total of a field over one segment: the sum of `f` over
all raw events of segment `s`.  The grouping lemmas below show that the
pivot-level totals equal these event-level totals. -/
def segTotal (events : List RawEvent) (s : Segment) (f : RawEvent → ℚ) : ℚ :=
  ((events.filter (fun e => decide (e.ms = s))).map f).sum

/-! ## Grouping lemmas: pivot totals equal event-level totals -/

lemma sum_map_filter_split {α : Type} (p : α → Bool) (f : α → ℚ) (l : List α) :
    ((l.filter p).map f).sum + ((l.filter (fun a => !p a)).map f).sum = (l.map f).sum := by
  induction l with
  | nil => simp
  | cons x xs ih =>
    by_cases h : p x <;> simp [List.filter_cons, h] <;> linarith [ih]

lemma sum_groups (key : RawEvent → ℕ) (f : RawEvent → ℚ) :
    ∀ (ds : List ℕ), ds.Nodup → ∀ (l : List RawEvent), (∀ e ∈ l, key e ∈ ds) →
      (ds.map (fun d => ((l.filter (fun e => decide (key e = d))).map f).sum)).sum
        = (l.map f).sum := by
  intro ds
  induction ds with
  | nil =>
    intro _ l hcov
    have hl : l = [] := by
      rw [List.eq_nil_iff_forall_not_mem]
      intro e he
      exact absurd (hcov e he) (List.not_mem_nil _)
    simp [hl]
  | cons d ds ih =>
    intro hnd l hcov
    obtain ⟨hd, hnd2⟩ := List.nodup_cons.mp hnd
    have hsplit := sum_map_filter_split (fun e => decide (key e = d)) f l
    have hrest : ∀ d2 ∈ ds,
        ((l.filter (fun e => !decide (key e = d))).filter (fun e => decide (key e = d2)))
          = l.filter (fun e => decide (key e = d2)) := by
      intro d2 hd2
      rw [List.filter_filter]
      apply List.filter_congr
      intro x _
      by_cases hx : key x = d2
      · have hxd : ¬ d2 = d := fun hcon => hd (hcon ▸ hd2)
        simp [hx, hxd]
      · simp [hx]
    have hcov2 : ∀ e ∈ l.filter (fun e => !decide (key e = d)), key e ∈ ds := by
      intro e he
      obtain ⟨hel, hene⟩ := List.mem_filter.mp he
      have hne : key e ≠ d := by simpa using hene
      rcases List.mem_cons.mp (hcov e hel) with h | h
      · exact absurd h hne
      · exact h
    have hih := ih hnd2 (l.filter (fun e => !decide (key e = d))) hcov2
    have hmapeq : (ds.map (fun d2 => ((l.filter (fun e => decide (key e = d2))).map f).sum))
        = (ds.map (fun d2 =>
            (((l.filter (fun e => !decide (key e = d))).filter
                (fun e => decide (key e = d2))).map f).sum)) :=
      List.map_congr_left (fun d2 hd2 => by rw [hrest d2 hd2])
    calc ((d :: ds).map (fun d2 => ((l.filter (fun e => decide (key e = d2))).map f).sum)).sum
        = ((l.filter (fun e => decide (key e = d))).map f).sum
          + (ds.map (fun d2 => ((l.filter (fun e => decide (key e = d2))).map f).sum)).sum := by
          simp
      _ = ((l.filter (fun e => decide (key e = d))).map f).sum
          + (ds.map (fun d2 =>
              (((l.filter (fun e => !decide (key e = d))).filter
                  (fun e => decide (key e = d2))).map f).sum)).sum := by
          rw [hmapeq]
      _ = (l.map f).sum := by rw [hih]; exact hsplit

lemma matchCell_eq_filter (events : List RawEvent) (d : ℕ) (s : Segment) :
    matchCell events d s
      = (events.filter (fun e => decide (e.ms = s))).filter
          (fun e => decide (e.cohort = d)) := by
  rw [List.filter_filter]
  rfl

lemma esumCol_cells (events : List RawEvent) (s : Segment) (f : RawEvent → ℚ) :
    ∀ ds : List ℕ,
      esumCol (ds.map (fun d => cellSum events d s f))
        = EVal.num ((ds.map (fun d => ((matchCell events d s).map f).sum)).sum) := by
  intro ds
  induction ds with
  | nil => simp [esumCol, dropNan, esum]
  | cons d ds ih =>
    by_cases h : (matchCell events d s).length = 0
    · have hmap : matchCell events d s = [] := List.length_eq_zero.mp h
      have : cellSum events d s f = EVal.nan := by simp [cellSum, h]
      simpa [esumCol, dropNan, List.filter_cons, this, hmap] using ih
    · have : cellSum events d s f = EVal.num ((matchCell events d s).map f).sum := by
        simp [cellSum, h]
      have hstep : esumCol ((d :: ds).map (fun d2 => cellSum events d2 s f))
          = EVal.eadd (EVal.num ((matchCell events d s).map f).sum)
              (esumCol (ds.map (fun d2 => cellSum events d2 s f))) := by
        simp [esumCol, dropNan, List.filter_cons, this, esum]
      rw [hstep, ih]
      simp [EVal.eadd]

lemma colTotal_eq (events : List RawEvent) (s : Segment) (f : RawEvent → ℚ) :
    esumCol ((pivotDates events).map (fun d => cellSum events d s f))
      = EVal.num (segTotal events s f) := by
  rw [esumCol_cells]
  congr 1
  have hcov : ∀ e ∈ events.filter (fun e => decide (e.ms = s)),
      e.cohort ∈ pivotDates events := by
    intro e he
    have : e ∈ events := List.mem_of_mem_filter he
    exact List.mem_dedup.mpr (List.mem_map_of_mem (·.cohort) this)
  have hgr := sum_groups (·.cohort) f (pivotDates events) (List.nodup_dedup _)
    (events.filter (fun e => decide (e.ms = s))) hcov
  have hmc : (pivotDates events).map (fun d => ((matchCell events d s).map f).sum)
      = (pivotDates events).map (fun d =>
          (((events.filter (fun e => decide (e.ms = s))).filter
              (fun e => decide (e.cohort = d))).map f).sum) :=
    List.map_congr_left (fun d _ => by rw [matchCell_eq_filter])
  rw [hmc]
  exact hgr

lemma total_ua_eq (events : List RawEvent) :
    total_ua events = EVal.num (segTotal events Segment.UA (·.user_cnt)) := by
  have := colTotal_eq events Segment.UA (·.user_cnt)
  simpa [total_ua, pivotRows, pivotRow, List.map_map, Function.comp] using this

lemma total_organic_eq (events : List RawEvent) :
    total_organic events = EVal.num (segTotal events Segment.ORGANIC (·.user_cnt)) := by
  have := colTotal_eq events Segment.ORGANIC (·.user_cnt)
  simpa [total_organic, pivotRows, pivotRow, List.map_map, Function.comp] using this

lemma total_gross_ua_eq (events : List RawEvent) :
    total_gross_ua events = EVal.num (segTotal events Segment.UA (·.gross)) := by
  have := colTotal_eq events Segment.UA (·.gross)
  simpa [total_gross_ua, pivotRows, pivotRow, List.map_map, Function.comp] using this

lemma total_gross_organic_eq (events : List RawEvent) :
    total_gross_organic events = EVal.num (segTotal events Segment.ORGANIC (·.gross)) := by
  have := colTotal_eq events Segment.ORGANIC (·.gross)
  simpa [total_gross_organic, pivotRows, pivotRow, List.map_map, Function.comp] using this

lemma segTotal_perm {events events2 : List RawEvent} (hperm : events.Perm events2)
    (s : Segment) (f : RawEvent → ℚ) : segTotal events s f = segTotal events2 s f :=
  ((hperm.filter _).map f).sum_eq

/-- C1: For every event collection with at least one UA-positive row (all
user counts nonnegative), the overall volume K-Factor of line 77 equals the
ratio of sums `sum(users_organic) / sum(users_ua)` — the ratio of sums, not
the mean of per-row ratios — and it is invariant under any reordering of the
input rows.  Float arithmetic is idealised as exact rational arithmetic, so
the stated 1e-9 tolerance becomes exact equality. -/
theorem volume_k_factor_ratio_of_sums (events events2 : List RawEvent)
    (hperm : events.Perm events2)
    (hpos : ∃ e ∈ events, e.ms = Segment.UA ∧ 0 < e.user_cnt)
    (hnn : ∀ e ∈ events, 0 ≤ e.user_cnt) :
    k_factor events
        = EVal.num (segTotal events Segment.ORGANIC (·.user_cnt)
            / segTotal events Segment.UA (·.user_cnt))
      ∧ k_factor events2 = k_factor events := by
  obtain ⟨e, he, hms, hpos2⟩ := hpos
  have hef : e ∈ events.filter (fun x => decide (x.ms = Segment.UA)) :=
    List.mem_filter.mpr ⟨he, by simp [hms]⟩
  have hmem : e.user_cnt
      ∈ (events.filter (fun x => decide (x.ms = Segment.UA))).map (·.user_cnt) :=
    List.mem_map_of_mem _ hef
  have hnn2 : ∀ x ∈ (events.filter (fun x => decide (x.ms = Segment.UA))).map (·.user_cnt),
      0 ≤ x := by
    intro x hx
    obtain ⟨a, ha, rfl⟩ := List.mem_map.mp hx
    exact hnn a (List.mem_of_mem_filter ha)
  have hua : 0 < segTotal events Segment.UA (·.user_cnt) :=
    lt_of_lt_of_le hpos2 (List.single_le_sum hnn2 _ hmem)
  have huane : segTotal events Segment.UA (·.user_cnt) ≠ 0 := ne_of_gt hua
  constructor
  · rw [k_factor, total_ua_eq, total_organic_eq]
    simp [EVal.ediv, huane]
  · rw [k_factor, k_factor, total_ua_eq events, total_organic_eq events,
      total_ua_eq events2, total_organic_eq events2,
      segTotal_perm hperm Segment.UA (·.user_cnt),
      segTotal_perm hperm Segment.ORGANIC (·.user_cnt)]

/-- Concrete input for the C1 witness. -/
def eventsC1 : List RawEvent :=
  [⟨1, Segment.UA, 4, 10⟩, ⟨1, Segment.ORGANIC, 2, 5⟩]

theorem volume_k_factor_ratio_of_sums_witness :
    eventsC1.Perm eventsC1.reverse
      ∧ k_factor eventsC1
          = EVal.num (segTotal eventsC1 Segment.ORGANIC (·.user_cnt)
              / segTotal eventsC1 Segment.UA (·.user_cnt))
      ∧ k_factor eventsC1.reverse = k_factor eventsC1 := by
  have hperm : eventsC1.Perm eventsC1.reverse := (List.reverse_perm eventsC1).symm
  have h := volume_k_factor_ratio_of_sums eventsC1 eventsC1.reverse hperm
    ⟨⟨1, Segment.UA, 4, 10⟩, by simp [eventsC1], rfl, by norm_num⟩
    (by intro e he; simp [eventsC1] at he; rcases he with rfl | rfl <;> norm_num)
  exact ⟨hperm, h.1, h.2⟩

/-- C7: the four-step money attribution chain of lines 112-122 collapses to
the volume K-Factor when the two ARPUs agree: if the volume K-Factor is the
finite value r, the organic and UA ARPUs are equal, and the UA gross total
is nonzero, then the money K-Factor is exactly r. -/
theorem money_k_factor_equal_arpu (events : List RawEvent) (r : ℚ)
    (hk : k_factor events = EVal.num r)
    (ha : arpu_organic events = arpu_ua events)
    (hgua : segTotal events Segment.UA (·.gross) ≠ 0) :
    k_factor_money events = EVal.num r := by
  have hk2 := hk
  rw [k_factor, total_ua_eq, total_organic_eq] at hk2
  by_cases hua : segTotal events Segment.UA (·.user_cnt) = 0
  · exfalso
    simp only [EVal.ediv, hua, if_pos rfl] at hk2
    split_ifs at hk2
  · have hr : segTotal events Segment.ORGANIC (·.user_cnt)
        / segTotal events Segment.UA (·.user_cnt) = r := by
      simp only [EVal.ediv, if_neg hua] at hk2
      exact EVal.num.injEq _ _ |>.mp hk2
    have ha2 := ha
    rw [arpu_organic, arpu_ua, total_gross_organic_eq, total_organic_eq,
      total_gross_ua_eq, total_ua_eq] at ha2
    by_cases horg : segTotal events Segment.ORGANIC (·.user_cnt) = 0
    · exfalso
      simp only [EVal.ediv, horg, if_pos rfl, if_neg hua] at ha2
      split_ifs at ha2
    · have harpu : segTotal events Segment.ORGANIC (·.gross)
          / segTotal events Segment.ORGANIC (·.user_cnt)
            = segTotal events Segment.UA (·.gross)
              / segTotal events Segment.UA (·.user_cnt) := by
        simp only [EVal.ediv, if_neg horg, if_neg hua] at ha2
        exact EVal.num.injEq _ _ |>.mp ha2
      have harpuv : arpu_organic events
          = EVal.num (segTotal events Segment.ORGANIC (·.gross)
              / segTotal events Segment.ORGANIC (·.user_cnt)) := by
        rw [arpu_organic, total_gross_organic_eq, total_organic_eq]
        simp [EVal.ediv, horg]
      rw [k_factor_money, gross_from_organic_via_ua, organic_from_ua,
        total_ua_eq, total_gross_ua_eq, hk, harpuv]
      simp only [EVal.emul, EVal.ediv, if_neg hgua]
      congr 1
      rw [harpu, ← hr]
      field_simp
      ring

lemma decide_seg_uu : decide (Segment.UA = Segment.UA) = true := rfl

lemma decide_seg_oo : decide (Segment.ORGANIC = Segment.ORGANIC) = true := rfl

lemma decide_seg_uo : decide (Segment.UA = Segment.ORGANIC) = false := rfl

lemma decide_seg_ou : decide (Segment.ORGANIC = Segment.UA) = false := rfl

/-- Concrete input for the C7 witness: one UA row and one organic row with
equal ARPUs (10 revenue per user on both segments). -/
def eventsC7 : List RawEvent :=
  [⟨1, Segment.UA, 100, 1000⟩, ⟨1, Segment.ORGANIC, 50, 500⟩]

theorem money_k_factor_equal_arpu_witness :
    k_factor eventsC7 = EVal.num (1 / 2)
      ∧ arpu_organic eventsC7 = arpu_ua eventsC7
      ∧ k_factor_money eventsC7 = EVal.num (1 / 2) := by
  have hk : k_factor eventsC7 = EVal.num (1 / 2) := by
    rw [k_factor, total_ua_eq, total_organic_eq]
    norm_num [segTotal, eventsC7, List.filter, EVal.ediv, decide_seg_uu, decide_seg_oo, decide_seg_uo, decide_seg_ou]
  have ha : arpu_organic eventsC7 = arpu_ua eventsC7 := by
    rw [arpu_organic, arpu_ua, total_gross_organic_eq, total_organic_eq,
      total_gross_ua_eq, total_ua_eq]
    norm_num [segTotal, eventsC7, List.filter, EVal.ediv, decide_seg_uu, decide_seg_oo, decide_seg_uo, decide_seg_ou]
  have hg : segTotal eventsC7 Segment.UA (·.gross) ≠ 0 := by
    norm_num [segTotal, eventsC7, List.filter, decide_seg_uu, decide_seg_oo, decide_seg_uo, decide_seg_ou]
  exact ⟨hk, ha, money_k_factor_equal_arpu eventsC7 (1 / 2) hk ha hg⟩

/-! ## C8: aggregation is a sum homomorphism over date-range partitions -/

lemma filter_swap {α : Type} (p q : α → Bool) (l : List α) :
    (l.filter p).filter q = (l.filter q).filter p := by
  rw [List.filter_filter, List.filter_filter]
  exact List.filter_congr (fun x _ => Bool.and_comm _ _)

lemma segTotal_partition (events : List RawEvent) (cut : ℕ) (s : Segment)
    (f : RawEvent → ℚ) :
    segTotal (events.filter (fun e => decide (e.cohort ≤ cut))) s f
        + segTotal (events.filter (fun e => !decide (e.cohort ≤ cut))) s f
      = segTotal events s f := by
  unfold segTotal
  rw [filter_swap (fun e => decide (e.cohort ≤ cut)) (fun e => decide (e.ms = s)) events,
    filter_swap (fun e => !decide (e.cohort ≤ cut)) (fun e => decide (e.ms = s)) events]
  exact sum_map_filter_split (fun e => decide (e.cohort ≤ cut)) f
    (events.filter (fun e => decide (e.ms = s)))

/-- C8: aggregation is a sum homomorphism: splitting the raw events into two
complementary date-range partitions (dates up to the cutoff and dates after
it), aggregating each partition through the pivot, and adding the per-segment
user and gross totals gives exactly the totals of aggregating the whole event
list at once.  Moreover duplicate raw events for the same (date, segment)
pair are summed into one pivot cell, never overwritten: two UA events with
user counts 3 and 4 on the same date aggregate to 7. -/
theorem aggregation_sum_homomorphism (events : List RawEvent) (cut : ℕ) :
    EVal.eadd (total_ua (events.filter (fun e => decide (e.cohort ≤ cut))))
        (total_ua (events.filter (fun e => !decide (e.cohort ≤ cut)))) = total_ua events
      ∧ EVal.eadd (total_organic (events.filter (fun e => decide (e.cohort ≤ cut))))
          (total_organic (events.filter (fun e => !decide (e.cohort ≤ cut))))
        = total_organic events
      ∧ EVal.eadd (total_gross_ua (events.filter (fun e => decide (e.cohort ≤ cut))))
          (total_gross_ua (events.filter (fun e => !decide (e.cohort ≤ cut))))
        = total_gross_ua events
      ∧ EVal.eadd (total_gross_organic (events.filter (fun e => decide (e.cohort ≤ cut))))
          (total_gross_organic (events.filter (fun e => !decide (e.cohort ≤ cut))))
        = total_gross_organic events
      ∧ cellSum [⟨1, Segment.UA, 3, 30⟩, ⟨1, Segment.UA, 4, 40⟩] 1 Segment.UA (·.user_cnt)
        = EVal.num 7 := by
  refine ⟨?_, ?_, ?_, ?_, ?_⟩
  · rw [total_ua_eq, total_ua_eq, total_ua_eq]
    simp only [EVal.eadd]
    rw [segTotal_partition]
  · rw [total_organic_eq, total_organic_eq, total_organic_eq]
    simp only [EVal.eadd]
    rw [segTotal_partition]
  · rw [total_gross_ua_eq, total_gross_ua_eq, total_gross_ua_eq]
    simp only [EVal.eadd]
    rw [segTotal_partition]
  · rw [total_gross_organic_eq, total_gross_organic_eq, total_gross_organic_eq]
    simp only [EVal.eadd]
    rw [segTotal_partition]
  · norm_num [cellSum, matchCell, List.filter, decide_seg_uu]

/-! ## C6: dates missing one segment entirely -/

lemma EVal.ediv_nan_left (y : EVal) : EVal.ediv EVal.nan y = EVal.nan := by
  cases y <;> rfl

lemma EVal.ediv_nan_right (x : EVal) : EVal.ediv x EVal.nan = EVal.nan := by
  cases x <;> rfl

/-- C6 amended: per-date aggregation sums user counts and gross revenue
separately per segment for the dates where the segment is present; but a
date entirely missing one segment yields NaN — a missing value, not zero —
for that segment in the pivot (line 48 sets no fill_value), and the row
k_factor of line 50 is then NaN whether the missing segment is the organic
one or the UA one (it is never 0). -/
theorem aggregate_missing_segment (events : List RawEvent) (d : ℕ) (s t : Segment)
    (hst : s ≠ t)
    (hmiss : matchCell events d s = [])
    (hpres : matchCell events d t ≠ []) :
    cellSum events d s (·.user_cnt) = EVal.nan
      ∧ cellSum events d s (·.gross) = EVal.nan
      ∧ cellSum events d t (·.user_cnt)
          = EVal.num (((matchCell events d t).map (·.user_cnt)).sum)
      ∧ cellSum events d t (·.gross)
          = EVal.num (((matchCell events d t).map (·.gross)).sum)
      ∧ rowK (pivotRow events d) = EVal.nan := by
  have hnan : ∀ f : RawEvent → ℚ, cellSum events d s f = EVal.nan := by
    intro f
    simp [cellSum, hmiss]
  have hlen : ¬ (matchCell events d t).length = 0 := by
    intro h
    exact hpres (List.length_eq_zero.mp h)
  have hnum : ∀ f : RawEvent → ℚ,
      cellSum events d t f = EVal.num (((matchCell events d t).map f).sum) := by
    intro f
    simp [cellSum, hlen]
  refine ⟨hnan _, hnan _, hnum _, hnum _, ?_⟩
  cases s <;> cases t
  · exact absurd rfl hst
  · rw [rowK]
    show EVal.ediv (cellSum events d Segment.ORGANIC (·.user_cnt)) _ = EVal.nan
    rw [hnan (·.user_cnt), EVal.ediv_nan_left]
  · rw [rowK]
    show EVal.ediv _ (cellSum events d Segment.UA (·.user_cnt)) = EVal.nan
    rw [hnan (·.user_cnt), EVal.ediv_nan_right]
  · exact absurd rfl hst

/-- Concrete input for C6: date 2 has a UA event but no organic event. -/
def eventsC6 : List RawEvent :=
  [⟨1, Segment.ORGANIC, 5, 50⟩, ⟨1, Segment.UA, 10, 100⟩, ⟨2, Segment.UA, 8, 80⟩]

theorem aggregate_missing_segment_witness :
    matchCell eventsC6 2 Segment.ORGANIC = []
      ∧ matchCell eventsC6 2 Segment.UA ≠ []
      ∧ cellSum eventsC6 2 Segment.ORGANIC (·.user_cnt) = EVal.nan
      ∧ rowK (pivotRow eventsC6 2) = EVal.nan := by
  have hmiss : matchCell eventsC6 2 Segment.ORGANIC = [] := by
    simp [matchCell, eventsC6, List.filter, decide_seg_ou, decide_seg_uo]
  have hpres : matchCell eventsC6 2 Segment.UA ≠ [] := by
    simp [matchCell, eventsC6, List.filter, decide_seg_uu, decide_seg_ou]
  have h := aggregate_missing_segment eventsC6 2 Segment.ORGANIC Segment.UA
    (by simp) hmiss hpres
  exact ⟨hmiss, hpres, h.1, h.2.2.2.2⟩

/-- C6 counterexample to the claim as stated: at date 2 of `eventsC6` the
organic segment is absent; the claim says the organic user cell is 0 and the
row k_factor is 0, but the code produces NaN for both. -/
theorem aggregate_missing_segment_counterexample :
    (pivotRow eventsC6 2).users_ORGANIC = EVal.nan
      ∧ (pivotRow eventsC6 2).users_ORGANIC ≠ EVal.num 0
      ∧ rowK (pivotRow eventsC6 2) = EVal.nan
      ∧ rowK (pivotRow eventsC6 2) ≠ EVal.num 0 := by
  have h1 : (pivotRow eventsC6 2).users_ORGANIC = EVal.nan := by
    simp [pivotRow, cellSum, matchCell, eventsC6, List.filter, decide_seg_ou, decide_seg_uo]
  have h2 : rowK (pivotRow eventsC6 2) = EVal.nan := by
    rw [rowK, h1, EVal.ediv_nan_left]
  exact ⟨h1, by rw [h1]; simp, h2, by rw [h2]; simp⟩

/-! ## C2: division by zero produces IEEE special values, not a sentinel -/

lemma eadd_nan_right (x : EVal) : EVal.eadd x EVal.nan = EVal.nan := by
  cases x <;> rfl

lemma eadd_pinf_left (y : EVal) :
    EVal.eadd EVal.pinf y = EVal.pinf ∨ EVal.eadd EVal.pinf y = EVal.nan := by
  cases y <;> simp [EVal.eadd]

lemma eadd_pinf_right (x : EVal) :
    EVal.eadd x EVal.pinf = EVal.pinf ∨ EVal.eadd x EVal.pinf = EVal.nan := by
  cases x <;> simp [EVal.eadd]

lemma esum_pinf_mem : ∀ xs : List EVal, EVal.pinf ∈ xs →
    esum xs = EVal.pinf ∨ esum xs = EVal.nan := by
  intro xs
  induction xs with
  | nil => intro h; exact absurd h (List.not_mem_nil _)
  | cons x xs ih =>
    intro hmem
    have hcons : esum (x :: xs) = EVal.eadd x (esum xs) := rfl
    rcases List.mem_cons.mp hmem with rfl | hx
    · rw [hcons]
      exact eadd_pinf_left (esum xs)
    · rcases ih hx with h | h
      · rw [hcons, h]
        exact eadd_pinf_right x
      · right
        rw [hcons, h, eadd_nan_right]

lemma emean_pinf_mem (xs : List EVal) (hmem : EVal.pinf ∈ xs) :
    emean xs = EVal.pinf ∨ emean xs = EVal.nan := by
  have hpd : EVal.pinf ∈ dropNan xs := List.mem_filter.mpr ⟨hmem, by simp⟩
  have hne : ¬ (dropNan xs).length = 0 := by
    intro h
    rw [List.length_eq_zero] at h
    rw [h] at hpd
    exact List.not_mem_nil _ hpd
  have hcast : ¬ ((dropNan xs).length : ℚ) < 0 := not_lt.mpr (Nat.cast_nonneg _)
  rcases esum_pinf_mem _ hpd with h | h
  · left
    simp [emean, hne, h, EVal.ediv, hcast]
  · right
    simp [emean, hne, h, EVal.ediv_nan_left]

/-- C2 amended: division by zero in the per-row k_factor of line 50 never
faults, but it does not produce a sentinel distinguishable from infinity:
a pivot row with zero UA users and positive organic users has k_factor
equal to IEEE positive infinity.  That value is not excluded from the
statistics of line 397: the pandas mean (which skips only NaN) of any
k_factor column containing positive infinity is itself positive infinity or
NaN, and the program builds no excluded list. -/
theorem division_by_zero_yields_inf (r : PivotRow) (q : ℚ)
    (husers : r.users_UA = EVal.num 0)
    (horg : r.users_ORGANIC = EVal.num q) (hq : 0 < q)
    (ks : List EVal) (hmem : EVal.pinf ∈ ks) :
    rowK r = EVal.pinf ∧ (emean ks = EVal.pinf ∨ emean ks = EVal.nan) := by
  constructor
  · rw [rowK, husers, horg]
    simp [EVal.ediv, hq]
  · exact emean_pinf_mem ks hmem

/-- Concrete input for C2: one cohort day with 5 organic users and a UA row
with zero users. -/
def eventsC2 : List RawEvent :=
  [⟨1, Segment.ORGANIC, 5, 0⟩, ⟨1, Segment.UA, 0, 0⟩]

theorem division_by_zero_yields_inf_witness :
    (pivotRow eventsC2 1).users_UA = EVal.num 0
      ∧ rowK (pivotRow eventsC2 1) = EVal.pinf
      ∧ (emean ((pivotRows eventsC2).map rowK) = EVal.pinf
          ∨ emean ((pivotRows eventsC2).map rowK) = EVal.nan) := by
  have husers : (pivotRow eventsC2 1).users_UA = EVal.num 0 := by
    norm_num [pivotRow, cellSum, matchCell, eventsC2, List.filter, decide_seg_uu,
      decide_seg_ou]
  have horg : (pivotRow eventsC2 1).users_ORGANIC = EVal.num 5 := by
    norm_num [pivotRow, cellSum, matchCell, eventsC2, List.filter, decide_seg_oo,
      decide_seg_uo]
  have h := division_by_zero_yields_inf (pivotRow eventsC2 1) 5 husers horg
    (by norm_num) ((pivotRows eventsC2).map rowK) ?hmem
  case hmem =>
    have hrows : pivotRows eventsC2 = [pivotRow eventsC2 1] := by
      simp [pivotRows, pivotDates, eventsC2, List.dedup]
    rw [hrows]
    have hk : rowK (pivotRow eventsC2 1) = EVal.pinf := by
      rw [rowK, husers, horg]
      norm_num [EVal.ediv]
    simp [hk]
  exact ⟨husers, h.1, h.2⟩

/-- C2 counterexample to the claim as stated: for the cohort day of
`eventsC2` (UA users 0, organic users 5) the per-row k_factor is IEEE
positive infinity — not an undefined sentinel distinguishable from
infinity — and the mean over the k_factor column is positive infinity,
so the row is not excluded from the mean used by outlier detection. -/
theorem division_by_zero_sentinel_counterexample :
    rowK (pivotRow eventsC2 1) = EVal.pinf
      ∧ emean ((pivotRows eventsC2).map rowK) = EVal.pinf := by
  have husers : (pivotRow eventsC2 1).users_UA = EVal.num 0 := by
    norm_num [pivotRow, cellSum, matchCell, eventsC2, List.filter, decide_seg_uu,
      decide_seg_ou]
  have horg : (pivotRow eventsC2 1).users_ORGANIC = EVal.num 5 := by
    norm_num [pivotRow, cellSum, matchCell, eventsC2, List.filter, decide_seg_oo,
      decide_seg_uo]
  have hk : rowK (pivotRow eventsC2 1) = EVal.pinf := by
    rw [rowK, husers, horg]
    norm_num [EVal.ediv]
  have hrows : pivotRows eventsC2 = [pivotRow eventsC2 1] := by
    simp [pivotRows, pivotDates, eventsC2, List.dedup]
  refine ⟨hk, ?_⟩
  rw [hrows]
  simp [hk, emean, dropNan, List.filter, esum, EVal.eadd, EVal.ediv]

/-! ## Anomaly detection (lines 385-400)

The anomaly and ranking computations operate on the k_factor column of the
pivot.  They are modelled on inputs whose k_factor values are all finite
rationals (every users_UA cell present and nonzero): a NaN k_factor (0/0)
would be skipped by the pandas mean/std and excluded from every comparison,
and an infinite k_factor poisons the statistics as proved in
`division_by_zero_yields_inf`. -/

/-- A pivot row reduced to its cohort date and its (finite) k_factor. -/
structure KRow where
  cohort : ℕ
  k : ℚ
deriving DecidableEq, Repr

/-- Line 397: `k_mean = pivot[k_factor].mean()`. -/
def kMean (rs : List KRow) : ℚ := ((rs.map (·.k)).sum) / rs.length

/-- Line 398: `k_std = pivot[k_factor].std()`.  Pandas `std` uses the
Bessel-corrected sample variance, denominator n - 1 (ddof defaults to 1);
`kVarS` is its square.  For fewer than two rows the pandas std is NaN; that
case is handled by the length guard in the classifiers below. -/
def kVarS (rs : List KRow) : ℚ :=
  ((rs.map (fun r => (r.k - kMean rs) ^ 2)).sum) / ((rs.length : ℚ) - 1)

/-- The population variance (denominator n, no Bessel correction) that the
claim asserts the code uses.  This definition follows the words of the
claim, not the source; the counterexample below separates the two. -/
def kVarPopSpec (rs : List KRow) : ℚ :=
  ((rs.map (fun r => (r.k - kMean rs) ^ 2)).sum) / (rs.length : ℚ)

/-- The line 399 condition `k_factor > k_mean + 2 * k_std` for one row,
where k_std is the square root of `kVarS`.  Since k_std is nonnegative the
comparison is encoded without square roots: the deviation is positive and
its square exceeds 4 * variance; `threshold_outliers_sample_std` proves
this encoding equivalent to the mean + 2 * sqrt form over the reals.  With
fewer than two rows the pandas std is NaN and every comparison with NaN is
false, hence the length guard. -/
def highRow (rs : List KRow) (r : KRow) : Bool :=
  decide (2 ≤ rs.length) && decide (kMean rs < r.k)
    && decide (4 * kVarS rs < (r.k - kMean rs) ^ 2)

/-- The line 400 condition `k_factor < k_mean - 2 * k_std` for one row. -/
def lowRow (rs : List KRow) (r : KRow) : Bool :=
  decide (2 ≤ rs.length) && decide (r.k < kMean rs)
    && decide (4 * kVarS rs < (r.k - kMean rs) ^ 2)

/-- Line 399: `anomalies_high = pivot[pivot.k_factor > k_mean + 2*k_std]`. -/
def anomalies_high (rs : List KRow) : List KRow := rs.filter (highRow rs)

/-- Line 400: `anomalies_low = pivot[pivot.k_factor < k_mean - 2*k_std]`. -/
def anomalies_low (rs : List KRow) : List KRow := rs.filter (lowRow rs)

lemma two_sqrt_lt_iff (v d : ℝ) (hv : 0 ≤ v) (hd : 0 < d) :
    2 * Real.sqrt v < d ↔ 4 * v < d ^ 2 := by
  constructor
  · intro h
    nlinarith [Real.sq_sqrt hv, Real.sqrt_nonneg v]
  · intro h
    nlinarith [Real.sq_sqrt hv, Real.sqrt_nonneg v]

lemma kVarS_nonneg (rs : List KRow) (h2 : 2 ≤ rs.length) : 0 ≤ kVarS rs := by
  apply div_nonneg
  · apply List.sum_nonneg
    intro x hx
    obtain ⟨r, _, rfl⟩ := List.mem_map.mp hx
    positivity
  · have : (2 : ℚ) ≤ rs.length := by exact_mod_cast h2
    linarith

lemma kMean_const (rs : List KRow) (hlen : rs.length ≠ 0)
    (c : ℚ) (hconst : ∀ a ∈ rs, a.k = c) : kMean rs = c := by
  have hsum : (rs.map (·.k)).sum = (rs.map (·.k)).length • c := by
    apply List.sum_eq_card_nsmul
    intro x hx
    obtain ⟨r, hr, rfl⟩ := List.mem_map.mp hx
    exact hconst r hr
  rw [kMean, hsum]
  rw [List.length_map, nsmul_eq_mul]
  have : (rs.length : ℚ) ≠ 0 := Nat.cast_ne_zero.mpr hlen
  field_simp

/-- C5 amended: threshold outlier detection (lines 396-400) computes the
mean and the sample (ddof = 1, Bessel-corrected) standard deviation — not
the population one — of the k_factor column, classifies exactly the rows
with k_factor above mean + 2 * std as high outliers and exactly the rows
below mean - 2 * std as low outliers (the multiplier 2 is hardcoded), and
on a constant k_factor series (zero standard deviation) it returns empty
high and low sets without any division-by-zero fault. -/
theorem threshold_outliers_sample_std (rs : List KRow) (r : KRow)
    (h2 : 2 ≤ rs.length) :
    (r ∈ anomalies_high rs
        ↔ r ∈ rs ∧ (kMean rs : ℝ) + 2 * Real.sqrt (kVarS rs) < (r.k : ℝ))
      ∧ (r ∈ anomalies_low rs
          ↔ r ∈ rs ∧ (r.k : ℝ) < (kMean rs : ℝ) - 2 * Real.sqrt (kVarS rs))
      ∧ ((∀ a ∈ rs, ∀ b ∈ rs, a.k = b.k)
          → anomalies_high rs = [] ∧ anomalies_low rs = []) := by
  have hv : (0 : ℝ) ≤ (kVarS rs : ℝ) := by
    exact_mod_cast kVarS_nonneg rs h2
  refine ⟨?_, ?_, ?_⟩
  · rw [anomalies_high, List.mem_filter]
    constructor
    · rintro ⟨hmem, hcond⟩
      refine ⟨hmem, ?_⟩
      simp only [highRow, Bool.and_eq_true, decide_eq_true_eq] at hcond
      obtain ⟨⟨-, hlt⟩, hsq⟩ := hcond
      have hd : (0 : ℝ) < (r.k : ℝ) - (kMean rs : ℝ) := by
        rw [sub_pos]
        exact_mod_cast hlt
      have hsq2 : 4 * (kVarS rs : ℝ) < ((r.k : ℝ) - (kMean rs : ℝ)) ^ 2 := by
        have := hsq
        push_cast at this ⊢
        exact_mod_cast hsq
      have := (two_sqrt_lt_iff _ _ hv hd).mpr hsq2
      linarith
    · rintro ⟨hmem, hcond⟩
      refine ⟨hmem, ?_⟩
      have hd : (0 : ℝ) < (r.k : ℝ) - (kMean rs : ℝ) := by
        have := Real.sqrt_nonneg ((kVarS rs : ℝ))
        linarith
      have h2s : 2 * Real.sqrt ((kVarS rs : ℝ)) < (r.k : ℝ) - (kMean rs : ℝ) := by
        linarith
      have hsq2 := (two_sqrt_lt_iff _ _ hv hd).mp h2s
      simp only [highRow, Bool.and_eq_true, decide_eq_true_eq]
      refine ⟨⟨h2, ?_⟩, ?_⟩
      · exact_mod_cast sub_pos.mp hd
      · exact_mod_cast hsq2
  · rw [anomalies_low, List.mem_filter]
    constructor
    · rintro ⟨hmem, hcond⟩
      refine ⟨hmem, ?_⟩
      simp only [lowRow, Bool.and_eq_true, decide_eq_true_eq] at hcond
      obtain ⟨⟨-, hlt⟩, hsq⟩ := hcond
      have hd : (0 : ℝ) < (kMean rs : ℝ) - (r.k : ℝ) := by
        rw [sub_pos]
        exact_mod_cast hlt
      have hsq2 : 4 * (kVarS rs : ℝ) < ((kMean rs : ℝ) - (r.k : ℝ)) ^ 2 := by
        have hq : 4 * kVarS rs < (kMean rs - r.k) ^ 2 := by
          have : (kMean rs - r.k) ^ 2 = (r.k - kMean rs) ^ 2 := by ring
          rw [this]
          exact hsq
        exact_mod_cast hq
      have := (two_sqrt_lt_iff _ _ hv hd).mpr hsq2
      linarith
    · rintro ⟨hmem, hcond⟩
      refine ⟨hmem, ?_⟩
      have hd : (0 : ℝ) < (kMean rs : ℝ) - (r.k : ℝ) := by
        have := Real.sqrt_nonneg ((kVarS rs : ℝ))
        linarith
      have h2s : 2 * Real.sqrt ((kVarS rs : ℝ)) < (kMean rs : ℝ) - (r.k : ℝ) := by
        linarith
      have hsq2 := (two_sqrt_lt_iff _ _ hv hd).mp h2s
      simp only [lowRow, Bool.and_eq_true, decide_eq_true_eq]
      refine ⟨⟨h2, ?_⟩, ?_⟩
      · exact_mod_cast sub_pos.mp hd
      · have hq : 4 * (kVarS rs : ℝ) < ((r.k : ℝ) - (kMean rs : ℝ)) ^ 2 := by
          have : ((r.k : ℝ) - (kMean rs : ℝ)) ^ 2 = ((kMean rs : ℝ) - (r.k : ℝ)) ^ 2 := by
            ring
          rw [this]
          exact hsq2
        exact_mod_cast hq
  · intro hconst
    have hlen : rs.length ≠ 0 := by omega
    constructor
    · rw [anomalies_high]
      rw [List.filter_eq_nil_iff]
      intro a ha
      simp only [highRow, Bool.and_eq_true, decide_eq_true_eq, not_and]
      intro h1
      rcases rs with _ | ⟨b, rs2⟩
      · exact absurd rfl hlen
      · have hmean : kMean (b :: rs2) = b.k :=
          kMean_const _ hlen b.k (fun x hx => hconst x hx b (List.mem_cons_self _ _))
        have hak : a.k = b.k := hconst a ha b (List.mem_cons_self _ _)
        rw [hmean, hak] at h1
        exact absurd h1.2 (lt_irrefl _)
    · rw [anomalies_low]
      rw [List.filter_eq_nil_iff]
      intro a ha
      simp only [lowRow, Bool.and_eq_true, decide_eq_true_eq, not_and]
      intro h1
      rcases rs with _ | ⟨b, rs2⟩
      · exact absurd rfl hlen
      · have hmean : kMean (b :: rs2) = b.k :=
          kMean_const _ hlen b.k (fun x hx => hconst x hx b (List.mem_cons_self _ _))
        have hak : a.k = b.k := hconst a ha b (List.mem_cons_self _ _)
        rw [hmean, hak] at h1
        exact absurd h1.2 (lt_irrefl _)

/-- Concrete input for C5: k_factor values 0, 0, 0, 0, 2, 6.  The mean is
4/3; the population variance is 44/9 while the sample variance is 264/45,
and the last row separates the two classifiers. -/
def rowsC5 : List KRow := [⟨1, 0⟩, ⟨2, 0⟩, ⟨3, 0⟩, ⟨4, 0⟩, ⟨5, 2⟩, ⟨6, 6⟩]

theorem threshold_outliers_sample_std_witness :
    2 ≤ rowsC5.length
      ∧ ((⟨6, 6⟩ : KRow) ∈ anomalies_high rowsC5
          ↔ (⟨6, 6⟩ : KRow) ∈ rowsC5
            ∧ (kMean rowsC5 : ℝ) + 2 * Real.sqrt (kVarS rowsC5)
              < (((⟨6, 6⟩ : KRow).k : ℚ) : ℝ)) :=
  ⟨by norm_num [rowsC5],
    (threshold_outliers_sample_std rowsC5 ⟨6, 6⟩ (by norm_num [rowsC5])).1⟩

/-- C5 counterexample to the claim as stated: on `rowsC5` the row with
k_factor 6 exceeds mean + 2 * population-stddev (4/3 + 2 * sqrt(44/9) is
below 6), so the claimed population-based classifier marks it as a high
outlier, but the code (sample standard deviation, ddof = 1) does not
classify it. -/
theorem threshold_outliers_population_counterexample :
    (kMean rowsC5 : ℝ) + 2 * Real.sqrt (kVarPopSpec rowsC5) < ((6 : ℚ) : ℝ)
      ∧ (⟨6, 6⟩ : KRow) ∉ anomalies_high rowsC5 := by
  constructor
  · have hmean : kMean rowsC5 = 4 / 3 := by norm_num [kMean, rowsC5]
    have hvar : kVarPopSpec rowsC5 = 44 / 9 := by
      norm_num [kVarPopSpec, kMean, rowsC5]
    rw [hmean, hvar]
    have hs : Real.sqrt (((44 / 9 : ℚ) : ℝ)) < 7 / 3 := by
      rw [Real.sqrt_lt' (by norm_num)]
      norm_num
    push_cast
    nlinarith [hs]
  · intro hmem
    have hcond := (List.mem_filter.mp hmem).2
    norm_num [highRow, kMean, kVarS, rowsC5] at hcond

/-! ## Ranking extremes (lines 385-394) -/

/-- Comparator for line 386: `nlargest(5, k_factor)` orders by k_factor
descending; the pandas keep=first policy resolves ties by original
position, and the pivot index is sorted by date ascending with distinct
dates, so the effective tie policy is date ascending.  The comparator
encodes that lexicographic order directly. -/
def topLE (a b : KRow) : Bool :=
  decide (b.k < a.k) || (decide (a.k = b.k) && decide (a.cohort ≤ b.cohort))

/-- Comparator for line 392: `nsmallest(5, k_factor)`, k_factor ascending
with the same date-ascending tie policy. -/
def botLE (a b : KRow) : Bool :=
  decide (a.k < b.k) || (decide (a.k = b.k) && decide (a.cohort ≤ b.cohort))

/-- Lines 386 and 392: the top-5 and bottom-5 tables by k_factor. -/
def rank_extremes (rs : List KRow) : List KRow × List KRow :=
  ((rs.mergeSort topLE).take 5, (rs.mergeSort botLE).take 5)

lemma topLE_trans (a b c : KRow) (h1 : topLE a b = true) (h2 : topLE b c = true) :
    topLE a c = true := by
  simp only [topLE, Bool.or_eq_true, Bool.and_eq_true, decide_eq_true_eq] at h1 h2 ⊢
  rcases h1 with h1 | ⟨h1e, h1c⟩ <;> rcases h2 with h2 | ⟨h2e, h2c⟩
  · exact Or.inl (lt_trans h2 h1)
  · exact Or.inl (h2e ▸ h1)
  · exact Or.inl (by rw [h1e]; exact h2)
  · exact Or.inr ⟨h1e.trans h2e, le_trans h1c h2c⟩

lemma topLE_total (a b : KRow) : (topLE a b || topLE b a) = true := by
  simp only [topLE, Bool.or_eq_true, Bool.and_eq_true, decide_eq_true_eq]
  rcases lt_trichotomy a.k b.k with h | h | h
  · exact Or.inr (Or.inl h)
  · rcases le_total a.cohort b.cohort with hc | hc
    · exact Or.inl (Or.inr ⟨h, hc⟩)
    · exact Or.inr (Or.inr ⟨h.symm, hc⟩)
  · exact Or.inl (Or.inl h)

lemma botLE_trans (a b c : KRow) (h1 : botLE a b = true) (h2 : botLE b c = true) :
    botLE a c = true := by
  simp only [botLE, Bool.or_eq_true, Bool.and_eq_true, decide_eq_true_eq] at h1 h2 ⊢
  rcases h1 with h1 | ⟨h1e, h1c⟩ <;> rcases h2 with h2 | ⟨h2e, h2c⟩
  · exact Or.inl (lt_trans h1 h2)
  · exact Or.inl (h2e ▸ h1)
  · exact Or.inl (by rw [h1e]; exact h2)
  · exact Or.inr ⟨h1e.trans h2e, le_trans h1c h2c⟩

lemma botLE_total (a b : KRow) : (botLE a b || botLE b a) = true := by
  simp only [botLE, Bool.or_eq_true, Bool.and_eq_true, decide_eq_true_eq]
  rcases lt_trichotomy a.k b.k with h | h | h
  · exact Or.inl (Or.inl h)
  · rcases le_total a.cohort b.cohort with hc | hc
    · exact Or.inl (Or.inr ⟨h, hc⟩)
    · exact Or.inr (Or.inr ⟨h.symm, hc⟩)
  · exact Or.inr (Or.inl h)

/-- C9: rank_extremes with k = 5 returns the top rows sorted by k_factor
descending and the bottom rows sorted by k_factor ascending, ties broken by
date ascending: each returned table is the 5-element prefix of a
reordering of the input that is sorted in the corresponding lexicographic
order.  On fewer than 5 rows both tables contain all rows (ranked), with no
error. -/
theorem rank_extremes_spec (rs : List KRow) :
    (∃ S : List KRow, S.Perm rs
        ∧ S.Pairwise (fun a b => b.k < a.k ∨ (a.k = b.k ∧ a.cohort ≤ b.cohort))
        ∧ (rank_extremes rs).1 = S.take 5)
      ∧ (∃ T : List KRow, T.Perm rs
          ∧ T.Pairwise (fun a b => a.k < b.k ∨ (a.k = b.k ∧ a.cohort ≤ b.cohort))
          ∧ (rank_extremes rs).2 = T.take 5)
      ∧ (rs.length < 5 → (rank_extremes rs).1.Perm rs ∧ (rank_extremes rs).2.Perm rs) := by
  refine ⟨?_, ?_, ?_⟩
  · refine ⟨rs.mergeSort topLE, List.mergeSort_perm rs topLE, ?_, rfl⟩
    have hs := List.sorted_mergeSort topLE_trans topLE_total rs
    exact hs.imp (fun h => by
      simpa only [topLE, Bool.or_eq_true, Bool.and_eq_true, decide_eq_true_eq] using h)
  · refine ⟨rs.mergeSort botLE, List.mergeSort_perm rs botLE, ?_, rfl⟩
    have hs := List.sorted_mergeSort botLE_trans botLE_total rs
    exact hs.imp (fun h => by
      simpa only [botLE, Bool.or_eq_true, Bool.and_eq_true, decide_eq_true_eq] using h)
  · intro hlt
    constructor
    · have hlen : (rs.mergeSort topLE).length ≤ 5 := by
        rw [List.length_mergeSort]
        omega
      rw [rank_extremes]
      simp only [List.take_of_length_le hlen]
      exact List.mergeSort_perm rs topLE
    · have hlen : (rs.mergeSort botLE).length ≤ 5 := by
        rw [List.length_mergeSort]
        omega
      rw [rank_extremes]
      simp only [List.take_of_length_le hlen]
      exact List.mergeSort_perm rs botLE

/-- Concrete input for the C9 witness: only two rows. -/
def rowsC9 : List KRow := [⟨1, 1⟩, ⟨2, 3⟩]

theorem rank_extremes_spec_witness :
    rowsC9.length < 5
      ∧ (rank_extremes rowsC9).1.Perm rowsC9
      ∧ (rank_extremes rowsC9).2.Perm rowsC9 :=
  ⟨by norm_num [rowsC9],
    ((rank_extremes_spec rowsC9).2.2 (by norm_num [rowsC9])).1,
    ((rank_extremes_spec rowsC9).2.2 (by norm_num [rowsC9])).2⟩

/-! ## Regression engine (lines 318-371)

The regression tab works on the series of (UA, Organic) pairs taken from
the pivot columns (line 323).  Line 325 adds shifted copies `UA_lag_k` for
k = 1..7, line 326 drops every row with a missing value, and lines 331 and
335 fit two `LinearRegression` models on the trimmed sample. -/

/-- Pandas `Series.shift(k)` (line 325): the first k entries become missing
values, the remaining entries are the original values shifted down, and the
length is preserved. -/
def shiftList (xs : List ℚ) (k : ℕ) : List (Option ℚ) :=
  (List.replicate k none ++ xs.map some).take xs.length

/-- Whether row i of the lag table survives `data.dropna()` (line 326): all
lag columns 1..7 must be present at i.  (The UA and Organic columns are
always present.) -/
def rowKept (uas : List ℚ) (i : ℕ) : Bool :=
  (List.range' 1 7).all (fun k => ((shiftList uas k).getD i none).isSome)

/-- The indices of the rows kept by `data.dropna()` (line 326). -/
def cleanIdx (series : List (ℚ × ℚ)) : List ℕ :=
  (List.range series.length).filter (fun i => rowKept (series.map Prod.fst) i)

/-- Line 326: `data_clean = data.dropna()`, as the list of (UA, Organic)
pairs of the surviving rows. -/
def dataClean (series : List (ℚ × ℚ)) : List (ℚ × ℚ) :=
  (cleanIdx series).map (fun i => series.getD i (0, 0))

lemma shiftList_getD (xs : List ℚ) (k i : ℕ) (hi : i < xs.length) :
    (shiftList xs k).getD i none = if i < k then none else xs[i - k]? := by
  have hik : i - k < xs.length := lt_of_le_of_lt (Nat.sub_le i k) hi
  rw [shiftList, List.getD_eq_getElem?_getD, List.getElem?_take, if_pos hi,
    List.getElem?_append, List.length_replicate]
  by_cases hk : i < k
  · simp [hk, List.getElem?_replicate]
  · simp [hk, List.getElem?_map, List.getElem?_eq_getElem hik]

lemma rowKept_iff (uas : List ℚ) (i : ℕ) (hi : i < uas.length) :
    rowKept uas i = decide (7 ≤ i) := by
  have h17 : List.range' 1 7 = [1, 2, 3, 4, 5, 6, 7] := rfl
  rw [rowKept, h17]
  simp only [List.all_cons, List.all_nil, Bool.and_true]
  rw [shiftList_getD uas 1 i hi, shiftList_getD uas 2 i hi, shiftList_getD uas 3 i hi,
    shiftList_getD uas 4 i hi, shiftList_getD uas 5 i hi, shiftList_getD uas 6 i hi,
    shiftList_getD uas 7 i hi]
  by_cases h7 : 7 ≤ i
  · have h1 : ¬ i < 1 := by omega
    have h2 : ¬ i < 2 := by omega
    have h3 : ¬ i < 3 := by omega
    have h4 : ¬ i < 4 := by omega
    have h5 : ¬ i < 5 := by omega
    have h6 : ¬ i < 6 := by omega
    have h7n : ¬ i < 7 := by omega
    have hsome : ∀ k : ℕ, i - k < uas.length → (uas[i - k]?).isSome = true := by
      intro k hk
      rw [List.getElem?_eq_getElem hk]
      rfl
    simp [h1, h2, h3, h4, h5, h6, h7n, h7,
      hsome 1 (lt_of_le_of_lt (Nat.sub_le i 1) hi),
      hsome 2 (lt_of_le_of_lt (Nat.sub_le i 2) hi),
      hsome 3 (lt_of_le_of_lt (Nat.sub_le i 3) hi),
      hsome 4 (lt_of_le_of_lt (Nat.sub_le i 4) hi),
      hsome 5 (lt_of_le_of_lt (Nat.sub_le i 5) hi),
      hsome 6 (lt_of_le_of_lt (Nat.sub_le i 6) hi),
      hsome 7 (lt_of_le_of_lt (Nat.sub_le i 7) hi)]
  · have h7y : i < 7 := by omega
    simp [h7y, h7]

lemma filter_range_le (n k : ℕ) :
    (List.range n).filter (fun i => decide (k ≤ i)) = List.range' k (n - k) := by
  induction n with
  | zero => simp
  | succ n ih =>
    rw [List.range_succ, List.filter_append, ih]
    by_cases h : k ≤ n
    · have hf : List.filter (fun i => decide (k ≤ i)) [n] = [n] := by simp [h]
      rw [hf]
      have hn : n + 1 - k = (n - k) + 1 := by omega
      rw [hn, List.range'_concat]
      congr 2
      omega
    · have hf : List.filter (fun i => decide (k ≤ i)) [n] = [] := by simp [h]
      rw [hf]
      have hn : n + 1 - k = 0 := by omega
      have hn2 : n - k = 0 := by omega
      rw [hn, hn2]
      rfl

lemma cleanIdx_eq (series : List (ℚ × ℚ)) :
    cleanIdx series = List.range' 7 (series.length - 7) := by
  rw [cleanIdx]
  have hcongr : (List.range series.length).filter
        (fun i => rowKept (series.map Prod.fst) i)
      = (List.range series.length).filter (fun i => decide (7 ≤ i)) := by
    apply List.filter_congr
    intro i hi
    have hi2 : i < (series.map Prod.fst).length := by
      rw [List.length_map]
      exact List.mem_range.mp hi
    exact rowKept_iff _ i hi2
  rw [hcongr, filter_range_le]

lemma map_getD_range' {α : Type} (d0 : α) :
    ∀ (m s : ℕ) (l : List α), s + m = l.length →
      (List.range' s m).map (fun i => l.getD i d0) = l.drop s := by
  intro m
  induction m with
  | zero =>
    intro s l h
    have : l.length ≤ s := by omega
    simp [List.drop_eq_nil_of_le this]
  | succ m ih =>
    intro s l h
    have hs : s < l.length := by omega
    rw [List.range'_succ, List.map_cons, ih (s + 1) l (by omega),
      List.drop_eq_getElem_cons hs, List.getD_eq_getElem?_getD,
      List.getElem?_eq_getElem hs]
    rfl

/-- The dropna of line 326 removes exactly the first seven periods. -/
lemma dataClean_eq_drop (series : List (ℚ × ℚ)) :
    dataClean series = series.drop 7 := by
  rw [dataClean, cleanIdx_eq]
  by_cases h : 7 ≤ series.length
  · exact map_getD_range' (0, 0) (series.length - 7) 7 series (by omega)
  · have h1 : series.length - 7 = 0 := by omega
    rw [h1]
    have h2 : series.length ≤ 7 := by omega
    simp [List.drop_eq_nil_of_le h2]

/-- Determinant of a square rational matrix given as a list of rows, by
Laplace expansion along the first column, with the matrix size as fuel. -/
def detM : ℕ → List (List ℚ) → ℚ
  | 0, _ => 1
  | n + 1, m =>
    ((List.range m.length).map (fun i =>
      (-1 : ℚ) ^ i * ((m.getD i []).getD 0 0)
        * detM n ((m.eraseIdx i).map (fun row => row.drop 1)))).sum

/-- Replace column j of a matrix by the vector b (for the Cramer rule). -/
def replaceCol (m : List (List ℚ)) (j : ℕ) (b : List ℚ) : List (List ℚ) :=
  (m.zip b).map (fun rb => rb.1.take j ++ rb.2 :: rb.1.drop (j + 1))

/-- Solve the square linear system A x = b by the Cramer rule; the zero
vector is returned when the determinant vanishes.  On full-rank normal
equations this is the unique least-squares solution that sklearn computes;
the singular fallback (where sklearn would give the minimum-norm lstsq
solution instead) is not relied on by any theorem below. -/
def cramerSolve (A : List (List ℚ)) (b : List ℚ) : List ℚ :=
  if detM A.length A = 0 then List.replicate A.length 0
  else (List.range A.length).map (fun j => detM A.length (replaceCol A j b) / detM A.length A)

/-- The Gram matrix of a design matrix given as a list of rows. -/
def gram (X : List (List ℚ)) (p : ℕ) : List (List ℚ) :=
  (List.range p).map (fun j =>
    (List.range p).map (fun k =>
      (X.map (fun row => row.getD j 0 * row.getD k 0)).sum))

/-- The moment vector (the design matrix transposed, applied to y). -/
def moment (X : List (List ℚ)) (y : List ℚ) (p : ℕ) : List ℚ :=
  (List.range p).map (fun j =>
    ((X.zip y).map (fun ry => ry.1.getD j 0 * ry.2)).sum)

/-- A fitted linear model: one coefficient per feature plus an intercept. -/
structure LinModel where
  coef : List ℚ
  intercept : ℚ
deriving DecidableEq, Repr

/-- `LinearRegression().fit(X, y)` (lines 331 and 335): sklearn raises a
ValueError on an empty sample — modelled as `Except.error` with the sklearn
message — and otherwise computes the least-squares fit with an intercept,
modelled by the normal equations of the design extended by a constant-one
column. -/
def linRegFit (X : List (List ℚ)) (y : List ℚ) : Except String LinModel :=
  if X.length = 0 then
    Except.error "Found array with 0 sample(s) while a minimum of 1 is required"
  else
    let p := (X.headD []).length + 1
    let Xa := X.map (fun row => row ++ [1])
    let sol := cramerSolve (gram Xa p) (moment Xa (y := y) p)
    Except.ok ⟨sol.take (p - 1), sol.getD (p - 1) 0⟩

/-- Fit the simple single-feature model on a cleaned sample of
(UA, Organic) pairs. -/
def fitOn (pts : List (ℚ × ℚ)) : Except String LinModel :=
  linRegFit (pts.map (fun p => [p.1])) (pts.map Prod.snd)

/-- Lines 329-331: the simple model, fitted on the dropna-trimmed sample
with the single feature UA. -/
def model_simple (series : List (ℚ × ℚ)) : Except String LinModel :=
  fitOn (dataClean series)

/-- The feature row [UA, UA_lag_1, UA_lag_2, UA_lag_3, UA_lag_7] at index i
(line 334); on kept rows every lag is present and the default is unused. -/
def lagFeatures (series : List (ℚ × ℚ)) (i : ℕ) : List ℚ :=
  ([0, 1, 2, 3, 7] : List ℕ).map (fun k =>
    ((shiftList (series.map Prod.fst) k).getD i none).getD 0)

/-- Lines 334-335: the multi-lag model, fitted on the same dropna-trimmed
sample. -/
def model_lags (series : List (ℚ × ℚ)) : Except String LinModel :=
  linRegFit ((cleanIdx series).map (lagFeatures series))
    ((cleanIdx series).map (fun i => (series.getD i (0, 0)).2))

/-- Line 346: `r2_score(y, model.predict(X))` over the fitted sample,
1 - SSres / SStot, where the predictions use the fitted simple model.  (For
a constant y, sklearn special-cases the zero denominator; under the
rational convention a / 0 = 0 this definition returns 1 there; no claim
depends on that degenerate case.  The error branch is unreachable in the
script, which would already have crashed at line 331.) -/
def r2core (pts : List (ℚ × ℚ)) : ℚ :=
  match fitOn pts with
  | Except.error _ => 0
  | Except.ok m =>
    let ybar := ((pts.map Prod.snd).sum) / pts.length
    1 - ((pts.map (fun p => (p.2 - (m.coef.getD 0 0 * p.1 + m.intercept)) ^ 2)).sum)
        / ((pts.map (fun p => (p.2 - ybar) ^ 2)).sum)

/-- The R² of line 346 as a function of the input series. -/
def r2_simple (series : List (ℚ × ℚ)) : ℚ := r2core (dataClean series)

/-! ## Projection (lines 369-371) -/

/-- Line 369: `predicted_organic = model_simple.coef_[0] * planned_ua +
model_simple.intercept_`.  No clipping appears in the code. -/
def predicted_organic (m : LinModel) (planned_ua : ℚ) : ℚ :=
  m.coef.getD 0 0 * planned_ua + m.intercept

/-- Line 370: `predicted_gross_ua = planned_ua * arpu_ua`. -/
def predicted_gross_ua (planned_ua arpu : ℚ) : ℚ := planned_ua * arpu

/-- Line 371: `predicted_gross_organic = predicted_organic * arpu_organic`,
using the raw (unclipped) predicted_organic. -/
def predicted_gross_organic (m : LinModel) (planned_ua arpu_org : ℚ) : ℚ :=
  predicted_organic m planned_ua * arpu_org

lemma detM_zero (m : List (List ℚ)) : detM 0 m = 1 := rfl

lemma detM_succ (n : ℕ) (m : List (List ℚ)) :
    detM (n + 1) m = ((List.range m.length).map (fun i =>
      (-1 : ℚ) ^ i * ((m.getD i []).getD 0 0)
        * detM n ((m.eraseIdx i).map (fun row => row.drop 1)))).sum := rfl

lemma detM_one (a : ℚ) : detM 1 [[a]] = a := by
  show detM (0 + 1) [[a]] = a
  rw [detM_succ]
  have hr : List.range 1 = [0] := rfl
  norm_num [detM_zero, hr]

lemma detM_two (a b c d : ℚ) : detM 2 [[a, b], [c, d]] = a * d - b * c := by
  show detM (1 + 1) [[a, b], [c, d]] = a * d - b * c
  rw [detM_succ]
  have hr : List.range 2 = [0, 1] := rfl
  norm_num [hr, detM_one]
  ring

/-- C10: line 326 drops exactly the rows lacking some lag-1..7 feature —
the first seven time periods — and the simple no-lag model of line 331 is
fitted on that same trimmed sample.  Hence the first seven periods never
influence the simple model coefficient, intercept or R²: any two series
that agree from index 7 on yield identical simple models and R² values. -/
theorem model_simple_ignores_first_seven (xs ys : List (ℚ × ℚ))
    (h : xs.drop 7 = ys.drop 7) :
    dataClean xs = xs.drop 7
      ∧ model_simple xs = model_simple ys
      ∧ r2_simple xs = r2_simple ys := by
  refine ⟨dataClean_eq_drop xs, ?_, ?_⟩
  · rw [model_simple, model_simple, dataClean_eq_drop, dataClean_eq_drop, h]
  · rw [r2_simple, r2_simple, dataClean_eq_drop, dataClean_eq_drop, h]

/-- Concrete inputs for the C10 witness: two 9-period series whose first
seven periods differ completely and whose last two periods agree. -/
def seriesC10a : List (ℚ × ℚ) :=
  [(0, 0), (0, 0), (0, 0), (0, 0), (0, 0), (0, 0), (0, 0), (10, 1), (20, 100)]

/-- Second series for the C10 witness. -/
def seriesC10b : List (ℚ × ℚ) :=
  [(5, 7), (8, 1), (3, 2), (9, 9), (4, 4), (1, 1), (2, 6), (10, 1), (20, 100)]

theorem model_simple_ignores_first_seven_witness :
    seriesC10a.drop 7 = seriesC10b.drop 7
      ∧ model_simple seriesC10a = model_simple seriesC10b
      ∧ r2_simple seriesC10a = r2_simple seriesC10b :=
  ⟨rfl, (model_simple_ignores_first_seven seriesC10a seriesC10b rfl).2.1,
    (model_simple_ignores_first_seven seriesC10a seriesC10b rfl).2.2⟩

/-- C4: with fewer than 8 total periods every row lacks some lag feature,
line 326 leaves an empty sample, and the lagged fit of line 335 produces
the explicit sklearn zero-sample error — no fitted or degenerate model. -/
theorem model_lags_insufficient_history (series : List (ℚ × ℚ))
    (h : series.length < 8) :
    model_lags series
      = Except.error "Found array with 0 sample(s) while a minimum of 1 is required" := by
  have hclean : cleanIdx series = [] := by
    rw [cleanIdx_eq]
    have h0 : series.length - 7 = 0 := by omega
    rw [h0]
    rfl
  rw [model_lags, hclean]
  rfl

/-- Concrete input for the C4 witness: two periods only. -/
def seriesC4 : List (ℚ × ℚ) := [(1, 2), (3, 4)]

theorem model_lags_insufficient_history_witness :
    seriesC4.length < 8
      ∧ model_lags seriesC4
        = Except.error "Found array with 0 sample(s) while a minimum of 1 is required" :=
  ⟨by norm_num [seriesC4],
    model_lags_insufficient_history seriesC4 (by norm_num [seriesC4])⟩

/-- Concrete input for C3: nine periods; the trimmed sample is the two
points (10, 1) and (20, 100), whose interpolating line has a negative
intercept. -/
def seriesC3 : List (ℚ × ℚ) :=
  [(0, 0), (0, 0), (0, 0), (0, 0), (0, 0), (0, 0), (0, 0), (10, 1), (20, 100)]

/-- C3 counterexample to the claim as stated: fitting the simple model on
`seriesC3` gives coefficient 99/10 and intercept -98; the projection of
line 369 at planned UA 1 is -881/10, a negative organic count — the
claimed clipped value would be 0 but the code does not clip — and line 371
multiplies the unclipped value into the gross projection. -/
theorem projection_no_clipping_counterexample :
    model_simple seriesC3 = Except.ok ⟨[99 / 10], -98⟩
      ∧ predicted_organic ⟨[99 / 10], -98⟩ 1 = -881 / 10
      ∧ max 0 (predicted_organic ⟨[99 / 10], -98⟩ 1) = 0
      ∧ predicted_organic ⟨[99 / 10], -98⟩ 1
          ≠ max 0 (predicted_organic ⟨[99 / 10], -98⟩ 1)
      ∧ predicted_gross_organic ⟨[99 / 10], -98⟩ 1 2 = -881 / 5 := by
  have hmodel : model_simple seriesC3 = Except.ok ⟨[99 / 10], -98⟩ := by
    rw [model_simple, dataClean_eq_drop]
    show fitOn [(10, 1), (20, 100)] = Except.ok ⟨[99 / 10], -98⟩
    rw [fitOn]
    show linRegFit [[10], [20]] [1, 100] = Except.ok ⟨[99 / 10], -98⟩
    have hr2 : List.range 2 = [0, 1] := rfl
    have hXa : ([[(10 : ℚ)], [20]] : List (List ℚ)).map (fun row => row ++ [1])
        = [[10, 1], [20, 1]] := by norm_num
    have hg : gram [[(10 : ℚ), 1], [20, 1]] 2 = [[500, 30], [30, 2]] := by
      norm_num [gram, hr2]
    have hm : moment [[(10 : ℚ), 1], [20, 1]] [1, 100] 2 = [2010, 101] := by
      norm_num [moment, hr2]
    have hd : detM 2 [[(500 : ℚ), 30], [30, 2]] = 100 := by
      rw [detM_two]
      norm_num
    have hsol : cramerSolve [[(500 : ℚ), 30], [30, 2]] [2010, 101] = [99 / 10, -98] := by
      norm_num [cramerSolve, hr2, hd, replaceCol, detM_two]
    simp only [linRegFit]
    norm_num [hXa, hg, hm, hsol]
  refine ⟨hmodel, by norm_num [predicted_organic], by norm_num [predicted_organic], ?_, ?_⟩
  · norm_num [predicted_organic]
  · norm_num [predicted_gross_organic, predicted_organic]

/-- C3 amended: for every simple model and planned UA input, the projection
of lines 369-371 computes predicted_organic as the raw model prediction
coef * planned_ua + intercept with no clipping of negative values (a fitted
model can make it negative, as the last conjunct exhibits at the model
fitted from `seriesC3`); predicted_gross_ua = planned_ua * arpu_ua; and
predicted_gross_organic multiplies the raw (unclipped) predicted organic
count by arpu_organic. -/
theorem projection_formulas (m : LinModel) (planned arpuU arpuO : ℚ) :
    predicted_organic m planned = m.coef.getD 0 0 * planned + m.intercept
      ∧ predicted_gross_ua planned arpuU = planned * arpuU
      ∧ predicted_gross_organic m planned arpuO
        = (m.coef.getD 0 0 * planned + m.intercept) * arpuO
      ∧ predicted_organic ⟨[99 / 10], -98⟩ 1 < 0 := by
  refine ⟨rfl, rfl, rfl, ?_⟩
  norm_num [predicted_organic]

end KFA
